import Mathlib

/-!
Shallow embedding of the task-store logic of `src/todo_frontend/src/App.js`
(a single-page todo-list manager persisting to localStorage).

Modelling conventions:
* A `Todo` record mirrors the `@typedef {Object} Todo` of the source:
  string `id`, string `title`, boolean `completed`, numeric `createdAt`
  (epoch milliseconds; `Date.now()` yields an integral number, so `Int`).
* The component state handled by React `useState` hooks becomes the record
  `AppState` (`todos`, `newTitle`, `editingId`, `editingTitle`, `filter`,
  `error`); each handler becomes a pure function `AppState → AppState`.
  Nondeterministic inputs of a handler (`Date.now()`, `generateId()`) become
  explicit parameters.
* `JSON.parse` output is modelled by the inductive `Json`; the raw stored
  value (which may be absent or unparseable text) by `StoredValue`.
  JSON numbers are modelled as `Int` (timestamps are integral).
* JS `===` on `editingId : string | null` against a string id is modelled by
  equality on `Option String`; JS truthiness of `editingId` (`if (editingId)`)
  is `editingIdTruthy` (false for `null` and for the empty string).
* `Array.prototype.sort` with comparator `a.createdAt - b.createdAt` is a
  stable sort by `createdAt`; it is modelled by the stable insertion sort
  `sortByCreatedAt` (on a tie the earlier input element stays first,
  matching stability of the JS sort).
* The scheduled error auto-dismissal (`clearErrorSoon`, a 2.5 s timer) and
  DOM focus management are real-time/UI concerns outside the embedding.
-/

/-- One task record, as in the `Todo` typedef of `App.js`. -/
structure Todo where
  id : String
  title : String
  completed : Bool
  createdAt : Int
  deriving Repr, DecidableEq

/-- Values produced by `JSON.parse`. -/
inductive Json where
  | null : Json
  | bool (b : Bool) : Json
  | num (n : Int) : Json
  | str (s : String) : Json
  | arr (elems : List Json) : Json
  | obj (fields : List (String × Json)) : Json

/-- The raw value read from the storage slot: the key may be missing
(`getItem` returned `null`, or the value is falsy), the text may fail
`JSON.parse` (the `catch` branch), or parsing succeeded with a value. -/
inductive StoredValue where
  | absent : StoredValue
  | unparseable : StoredValue
  | parsed (j : Json) : StoredValue

/-- Property access `t.k` on a parsed JSON value: a field of an object,
`undefined` (here `none`) otherwise. `JSON.parse` collapses duplicate keys,
so plain association lookup suffices. -/
def Json.getField : Json → String → Option Json
  | .obj fields, k => fields.lookup k
  | _, _ => none

/-- The element shape check of `parseStoredTodos` (`App.js` lines 27-34):
`t` is truthy, an object, with string `id`, string `title` and boolean
`completed`. Non-objects have no fields, so all those accesses fail. -/
def conformsTodo (j : Json) : Bool :=
  match j.getField "id", j.getField "title", j.getField "completed" with
  | some (.str _), some (.str _), some (.bool _) => true
  | _, _, _ => false

/-- The element mapping of `parseStoredTodos` (`App.js` lines 35-40): read
the four fields, substituting `Date.now()` (the `now` parameter) for a
missing or non-numeric `createdAt`. The other defaults are never hit on
elements passing `conformsTodo`, mirroring the guarded JS accesses. -/
def readTodo (now : Int) (j : Json) : Todo :=
  { id := match j.getField "id" with | some (.str s) => s | _ => ""
    title := match j.getField "title" with | some (.str s) => s | _ => ""
    completed := match j.getField "completed" with | some (.bool b) => b | _ => false
    createdAt := match j.getField "createdAt" with | some (.num n) => n | _ => now }

/-- `parseStoredTodos` (`App.js` lines 21-44): empty on a missing value, on
unparseable text and on a non-array value; otherwise the conforming
elements, shape-filtered then mapped. -/
def parseStoredTodos (now : Int) : StoredValue → List Todo
  | .absent => []
  | .unparseable => []
  | .parsed j =>
    match j with
    | .arr elems => (elems.filter conformsTodo).map (readTodo now)
    | _ => []

/-- The persistence write (`App.js` lines 72-78): `JSON.stringify(todos)`
serializes the collection as an array of objects with exactly these four
fields, modelled at the JSON-value level. -/
def encodeTodos (todos : List Todo) : Json :=
  .arr (todos.map fun t =>
    .obj [("id", .str t.id), ("title", .str t.title),
          ("completed", .bool t.completed), ("createdAt", .num t.createdAt)])

/-- Spec-side decoder of one persisted element, following the spec's words:
an element of conforming shape is kept (with the `createdAt` substitution),
a non-conforming element is dropped (`none`). Used to state that the
filter-then-map of `parseStoredTodos` keeps exactly the conforming
elements. -/
def decodeTodoElem (now : Int) (j : Json) : Option Todo :=
  if conformsTodo j then some (readTodo now j) else none

/-- `getCounts` (`App.js` lines 50-54). `completed ≤ total` always, so the
`Nat` subtraction agrees with the JS `total - completed`. -/
structure Counts where
  total : Nat
  completed : Nat
  active : Nat
  deriving Repr, DecidableEq

/-- `getCounts` (`App.js` lines 50-54). -/
def getCounts (todos : List Todo) : Counts :=
  let total := todos.length
  let completed := (todos.filter fun t => t.completed).length
  { total := total, completed := completed, active := total - completed }

/-- The three values of the `filter` state (`"all" | "active" | "completed"`). -/
inductive FilterView where
  | all : FilterView
  | active : FilterView
  | completed : FilterView
  deriving Repr, DecidableEq

/-- Stable insertion of a task into a list sorted ascending by `createdAt`:
the inserted element goes before the first strictly larger element and
after existing ties. -/
def insertByCreatedAt (t : Todo) : List Todo → List Todo
  | [] => [t]
  | x :: xs =>
    if t.createdAt ≤ x.createdAt then t :: x :: xs
    else x :: insertByCreatedAt t xs

/-- The sort `[...todos].sort((a, b) => a.createdAt - b.createdAt)` of
`App.js` line 89: a stable ascending sort by `createdAt`, modelled as a
stable insertion sort (ties keep their input order). -/
def sortByCreatedAt (todos : List Todo) : List Todo :=
  todos.foldr insertByCreatedAt []

/-- `visibleTodos` (`App.js` lines 88-93): sort ascending by `createdAt`,
then project by the current filter. -/
def visibleTodos (todos : List Todo) : FilterView → List Todo
  | .active => (sortByCreatedAt todos).filter fun t => !t.completed
  | .completed => (sortByCreatedAt todos).filter fun t => t.completed
  | .all => sortByCreatedAt todos

/-- The React component state of `App` (`App.js` lines 59-66): the task
collection plus the ephemeral UI-adjacent state. -/
structure AppState where
  todos : List Todo
  newTitle : String
  editingId : Option String
  editingTitle : String
  filter : FilterView
  error : String
  deriving Repr, DecidableEq

/-- JS `String.prototype.trim`: strip leading and trailing whitespace.
Modelled directly on the character list so that it is kernel-executable
(the built-in `String.trim` uses well-founded recursion on byte positions
and does not reduce); whitespace is `Char.isWhitespace`, abstracting the
JS WhiteSpace/LineTerminator set. -/
def jsTrim (s : String) : String :=
  ⟨((s.data.dropWhile Char.isWhitespace).reverse.dropWhile Char.isWhitespace).reverse⟩

/-- `validateTitle` (`App.js` lines 98-103). -/
def validateTitle (title : String) : Option String :=
  let trimmed := jsTrim title
  if trimmed = "" then some "Please type a task name."
  else if trimmed.length > 120 then some "Task name is too long (max 120 chars)."
  else none

/-- `addTodo` (`App.js` lines 110-132). `now` stands for `Date.now()` and
`newId` for the `generateId()` result (a time-based plus random string,
nondeterministic, hence a parameter). -/
def addTodo (now : Int) (newId : String) (s : AppState) : AppState :=
  match validateTitle s.newTitle with
  | some e => { s with error := e }
  | none =>
    let title := jsTrim s.newTitle
    let next : Todo := { id := newId, title := title, completed := false, createdAt := now }
    { s with todos := s.todos ++ [next], newTitle := "", error := "" }

/-- `startEdit` (`App.js` lines 135-139): takes the task object itself (the
UI passes the rendered `todo`). -/
def startEdit (todo : Todo) (s : AppState) : AppState :=
  { s with editingId := some todo.id, editingTitle := todo.title, error := "" }

/-- The id-indexed surface of `startEdit`: the UI renders an Edit button
only for tasks of the collection (line 367, over `visibleTodos`), so the
operation keyed by an id is invocable exactly for ids present in the
collection; an absent id reaches no handler and changes nothing. -/
def startEditById (id : String) (s : AppState) : AppState :=
  match s.todos.find? (fun t => t.id == id) with
  | some t => startEdit t s
  | none => s

/-- `cancelEdit` (`App.js` lines 142-146). -/
def cancelEdit (s : AppState) : AppState :=
  { s with editingId := none, editingTitle := "", error := "" }

/-- `commitEdit` (`App.js` lines 149-164). `t.id === editingId` compares a
string with `string | null`, hence the `Option` equality. -/
def commitEdit (s : AppState) : AppState :=
  match validateTitle s.editingTitle with
  | some e => { s with error := e }
  | none =>
    let nextTitle := jsTrim s.editingTitle
    { s with
      todos := s.todos.map fun t =>
        if some t.id = s.editingId then { t with title := nextTitle } else t
      editingId := none, editingTitle := "", error := "" }

/-- `deleteTodo` (`App.js` lines 167-170). -/
def deleteTodo (id : String) (s : AppState) : AppState :=
  let s1 := { s with todos := s.todos.filter fun t => !(t.id == id) }
  if s.editingId = some id then cancelEdit s1 else s1

/-- `toggleCompleted` (`App.js` lines 173-177). -/
def toggleCompleted (id : String) (s : AppState) : AppState :=
  { s with todos := s.todos.map fun t =>
      if t.id == id then { t with completed := !t.completed } else t }

/-- JS truthiness of `editingId : string | null`: `null` and the empty
string are falsy. -/
def editingIdTruthy : Option String → Bool
  | none => false
  | some id => id ≠ ""

/-- `clearCompleted` (`App.js` lines 180-186): drop completed tasks; then,
if `editingId` is truthy and the edit target does not survive (checked on
the pre-update `todos` closure value), cancel the edit. -/
def clearCompleted (s : AppState) : AppState :=
  let s1 := { s with todos := s.todos.filter fun t => !t.completed }
  if editingIdTruthy s.editingId then
    let stillExists := s.todos.any fun t => (some t.id == s.editingId) && !t.completed
    if !stillExists then cancelEdit s1 else s1
  else s1

/-! ### General lemmas about the embedded operations -/

/-- Validation messages are user-facing, never empty. -/
theorem validateTitle_msg_nonempty (title msg : String)
    (h : validateTitle title = some msg) : msg ≠ "" := by
  unfold validateTitle at h
  by_cases h1 : jsTrim title = ""
  · simp [h1] at h
    subst h
    decide
  · by_cases h2 : (jsTrim title).length > 120
    · simp [h1, h2] at h
      subst h
      decide
    · simp [h1, h2] at h

/-- Validation succeeds exactly on titles whose trimmed form is non-empty
and at most 120 characters. -/
theorem validateTitle_eq_none_iff (title : String) :
    validateTitle title = none ↔ jsTrim title ≠ "" ∧ (jsTrim title).length ≤ 120 := by
  unfold validateTitle
  by_cases h1 : jsTrim title = ""
  · simp [h1]
  · by_cases h2 : (jsTrim title).length > 120
    · simp [h1, h2]
    · simp [h1, h2]
      omega

/-- Inserting an element whose key dominates a trailing maximal element
commutes with that element staying last. -/
theorem insertByCreatedAt_append_last (a t : Todo) (s : List Todo)
    (ha : a.createdAt ≤ t.createdAt) :
    insertByCreatedAt a (s ++ [t]) = insertByCreatedAt a s ++ [t] := by
  induction s with
  | nil => simp [insertByCreatedAt, ha]
  | cons x xs ih =>
    by_cases h : a.createdAt ≤ x.createdAt
    · simp [insertByCreatedAt, h]
    · simp [insertByCreatedAt, h, ih]

/-- Appending a task whose `createdAt` dominates the whole list sorts last. -/
theorem sortByCreatedAt_append_last (l : List Todo) (t : Todo)
    (h : ∀ x ∈ l, x.createdAt ≤ t.createdAt) :
    sortByCreatedAt (l ++ [t]) = sortByCreatedAt l ++ [t] := by
  induction l with
  | nil => simp [sortByCreatedAt, insertByCreatedAt]
  | cons x xs ih =>
    have hx : x.createdAt ≤ t.createdAt := h x (by simp)
    have ih' := ih fun y hy => h y (by simp [hy])
    simp only [sortByCreatedAt, List.cons_append, List.foldr_cons] at ih' ⊢
    rw [ih', insertByCreatedAt_append_last _ _ _ hx]

/-- Membership in an insertion. -/
theorem mem_insertByCreatedAt (a x : Todo) (l : List Todo) :
    x ∈ insertByCreatedAt a l ↔ x = a ∨ x ∈ l := by
  induction l with
  | nil => simp [insertByCreatedAt]
  | cons y ys ih =>
    by_cases h : a.createdAt ≤ y.createdAt
    · simp [insertByCreatedAt, h]
    · simp [insertByCreatedAt, h, ih]
      tauto

/-- The sort is a permutation as far as membership is concerned. -/
theorem mem_sortByCreatedAt (x : Todo) (l : List Todo) :
    x ∈ sortByCreatedAt l ↔ x ∈ l := by
  induction l with
  | nil => simp [sortByCreatedAt]
  | cons y ys ih =>
    simp only [sortByCreatedAt, List.foldr_cons] at ih ⊢
    simp [mem_insertByCreatedAt, ih]

/-- Insertion preserves ascending order by `createdAt`. -/
theorem pairwise_insertByCreatedAt (a : Todo) (l : List Todo)
    (h : l.Pairwise fun x y => x.createdAt ≤ y.createdAt) :
    (insertByCreatedAt a l).Pairwise fun x y => x.createdAt ≤ y.createdAt := by
  induction l with
  | nil => simp [insertByCreatedAt]
  | cons y ys ih =>
    rcases List.pairwise_cons.mp h with ⟨hy, hys⟩
    by_cases hc : a.createdAt ≤ y.createdAt
    · rw [insertByCreatedAt, if_pos hc, List.pairwise_cons]
      refine ⟨?_, h⟩
      intro z hz
      rcases List.mem_cons.mp hz with rfl | hz'
      · exact hc
      · exact le_trans hc (hy z hz')
    · rw [insertByCreatedAt, if_neg hc, List.pairwise_cons]
      refine ⟨?_, ih hys⟩
      intro z hz
      rcases (mem_insertByCreatedAt a z ys).mp hz with rfl | hz'
      · exact le_of_not_le hc
      · exact hy z hz'

/-- The display sort is ascending by `createdAt`. -/
theorem sortByCreatedAt_pairwise (l : List Todo) :
    (sortByCreatedAt l).Pairwise fun x y => x.createdAt ≤ y.createdAt := by
  induction l with
  | nil => simp [sortByCreatedAt]
  | cons y ys ih =>
    simp only [sortByCreatedAt, List.foldr_cons] at ih ⊢
    exact pairwise_insertByCreatedAt y _ ih

/-- Both branches of `deleteTodo` leave the collection filtered on the id. -/
theorem deleteTodo_todos (id : String) (s : AppState) :
    (deleteTodo id s).todos = s.todos.filter fun t => !(t.id == id) := by
  unfold deleteTodo
  by_cases h : s.editingId = some id
  · simp [h, cancelEdit]
  · simp [h]

/-- Both branches of `clearCompleted` leave the collection filtered on the
completion flag. -/
theorem clearCompleted_todos (s : AppState) :
    (clearCompleted s).todos = s.todos.filter fun t => !t.completed := by
  unfold clearCompleted
  by_cases h : editingIdTruthy s.editingId
  · by_cases h2 : s.todos.any fun t => (some t.id == s.editingId) && !t.completed
    · simp [h, h2]
    · simp [h, h2, cancelEdit]
  · simp [h]

/-- A map whose function fixes every element of the list is the identity. -/
theorem map_fix_eq_self (l : List Todo) (f : Todo → Todo)
    (h : ∀ a ∈ l, f a = a) : l.map f = l := by
  induction l with
  | nil => rfl
  | cons x xs ih =>
    simp only [List.map_cons, h x (by simp)]
    rw [ih fun a ha => h a (by simp [ha])]

/-- A map whose function preserves ids preserves the id list. -/
theorem map_preserves_ids (l : List Todo) (f : Todo → Todo)
    (hf : ∀ t, (f t).id = t.id) :
    (l.map f).map (fun t => t.id) = l.map fun t => t.id := by
  induction l with
  | nil => rfl
  | cons x xs ih => simp only [List.map_cons, hf, ih]

/-- Zipping a list with its own image pairs each element with its image. -/
theorem zip_map_snd (l : List Todo) (f : Todo → Todo) :
    ∀ p ∈ l.zip (l.map f), p.2 = f p.1 := by
  induction l with
  | nil => simp
  | cons x xs ih =>
    intro p hp
    simp only [List.map_cons, List.zip_cons_cons, List.mem_cons] at hp
    rcases hp with rfl | hp'
    · rfl
    · exact ih p hp'

/-- Removing the unique occurrence of an id shortens the list by one. -/
theorem filter_ne_id_length (l : List Todo) (id : String)
    (hnd : (l.map fun t => t.id).Nodup) (hmem : ∃ t ∈ l, t.id = id) :
    (l.filter fun t => !(t.id == id)).length + 1 = l.length := by
  induction l with
  | nil => simp at hmem
  | cons x xs ih =>
    simp only [List.map_cons, List.nodup_cons] at hnd
    obtain ⟨hx, hxs⟩ := hnd
    by_cases hxid : x.id = id
    · have htail : ∀ y ∈ xs, !(y.id == id) := by
        intro y hy
        have : y.id ≠ id := by
          intro he
          exact hx (by rw [hxid, ← he]; exact List.mem_map_of_mem _ hy)
        simp [this]
      rw [List.filter_cons, if_neg (by simp [hxid]), List.filter_eq_self.mpr htail]
      simp
    · have hmem' : ∃ t ∈ xs, t.id = id := by
        rcases hmem with ⟨t, ht, hid⟩
        rcases List.mem_cons.mp ht with rfl | htl
        · exact absurd hid hxid
        · exact ⟨t, htl, hid⟩
      rw [List.filter_cons, if_pos (by simp [hxid])]
      simp only [List.length_cons]
      have := ih hxs hmem'
      omega

/-! ### C1 -/

/-- C1: for every raw title whose trimmed form is non-empty and at most 120
characters, `addTodo` (Create) appends exactly one new task to the end of
the collection — trimmed title, `completed = false`, `createdAt = now` —
leaving every pre-existing task unchanged; and provided the clock is
monotone (`now` at least every existing `createdAt`), the new task sorts
last under the default ascending-`createdAt` ordering. -/
theorem create_appends_one_task_sorting_last (s : AppState) (now : Int) (newId : String)
    (hne : jsTrim s.newTitle ≠ "") (hlen : (jsTrim s.newTitle).length ≤ 120)
    (hclock : ∀ t ∈ s.todos, t.createdAt ≤ now) :
    (addTodo now newId s).todos =
        s.todos ++ [{ id := newId, title := jsTrim s.newTitle,
                      completed := false, createdAt := now }]
      ∧ sortByCreatedAt (addTodo now newId s).todos =
          sortByCreatedAt s.todos ++ [{ id := newId, title := jsTrim s.newTitle,
                                        completed := false, createdAt := now }] := by
  have hv : validateTitle s.newTitle = none :=
    (validateTitle_eq_none_iff s.newTitle).mpr ⟨hne, hlen⟩
  constructor
  · simp [addTodo, hv]
  · simp only [addTodo, hv]
    exact sortByCreatedAt_append_last _ _ hclock

/-- C1 witness at a concrete input. -/
theorem create_appends_one_task_sorting_last_witness :
    (jsTrim " buy milk " ≠ "" ∧ (jsTrim " buy milk ").length ≤ 120
      ∧ ∀ t ∈ ([⟨"a", "x", false, 1⟩] : List Todo), t.createdAt ≤ 5)
    ∧ (addTodo 5 "b" ⟨[⟨"a", "x", false, 1⟩], " buy milk ", none, "", .all, ""⟩).todos =
        [⟨"a", "x", false, 1⟩, ⟨"b", "buy milk", false, 5⟩] := by
  refine ⟨⟨by decide, by decide, by decide⟩, ?_⟩
  have h := create_appends_one_task_sorting_last
    ⟨[⟨"a", "x", false, 1⟩], " buy milk ", none, "", .all, ""⟩ 5 "b"
    (by decide) (by decide) (by decide)
  rw [h.1]
  decide

/-! ### C2 -/

/-- C2: for every raw title whose trimmed form is empty (including
whitespace-only input) or longer than 120 characters, `addTodo` (Create)
yields the validation error with a non-empty user-facing message, and the
whole state is unchanged except for that error field — in particular the
task collection is completely unchanged. -/
theorem create_invalid_title_rejected (s : AppState) (now : Int) (newId : String)
    (hbad : jsTrim s.newTitle = "" ∨ 120 < (jsTrim s.newTitle).length) :
    ∃ msg, validateTitle s.newTitle = some msg ∧ msg ≠ ""
      ∧ addTodo now newId s = { s with error := msg }
      ∧ (addTodo now newId s).todos = s.todos := by
  have hv : ∃ msg, validateTitle s.newTitle = some msg := by
    cases hv : validateTitle s.newTitle with
    | some m => exact ⟨m, rfl⟩
    | none =>
      rcases (validateTitle_eq_none_iff s.newTitle).mp hv with ⟨hne, hlen⟩
      rcases hbad with h | h
      · exact absurd h hne
      · omega
  obtain ⟨msg, hv⟩ := hv
  exact ⟨msg, hv, validateTitle_msg_nonempty _ _ hv, by simp [addTodo, hv], by simp [addTodo, hv]⟩

/-- C2 witness at a concrete whitespace-only input. -/
theorem create_invalid_title_rejected_witness :
    (jsTrim "   " = "" ∨ 120 < (jsTrim "   ").length)
    ∧ (addTodo 9 "z" ⟨[⟨"a", "x", false, 1⟩], "   ", none, "", .all, ""⟩).todos =
        [⟨"a", "x", false, 1⟩]
    ∧ (addTodo 9 "z" ⟨[⟨"a", "x", false, 1⟩], "   ", none, "", .all, ""⟩).error =
        "Please type a task name." := by
  refine ⟨by decide, ?_, ?_⟩
  · obtain ⟨msg, _, _, _, h4⟩ := create_invalid_title_rejected
      ⟨[⟨"a", "x", false, 1⟩], "   ", none, "", .all, ""⟩ 9 "z" (by decide)
    exact h4
  · decide

/-! ### C3 -/

/-- C3: serializing any collection to the persisted encoding and
rehydrating the result yields the same collection — same `id`, `title`,
`completed` and `createdAt` on every task. This holds for every collection,
in particular for every collection built purely from valid
Create/Toggle/Delete/CommitEdit operations as the spec states it. -/
theorem persist_roundtrip (now : Int) (todos : List Todo) :
    parseStoredTodos now (.parsed (encodeTodos todos)) = todos := by
  induction todos with
  | nil => rfl
  | cons t ts ih =>
    have hc : conformsTodo (Json.obj
        [("id", .str t.id), ("title", .str t.title),
         ("completed", .bool t.completed), ("createdAt", .num t.createdAt)]) = true := rfl
    have hr : readTodo now (Json.obj
        [("id", .str t.id), ("title", .str t.title),
         ("completed", .bool t.completed), ("createdAt", .num t.createdAt)]) = t := rfl
    simp only [encodeTodos, parseStoredTodos, List.map_cons, List.filter_cons, hc,
      if_true] at ih ⊢
    rw [hr, ih]

/-! ### C4 -/

/-- C4: rehydration is total and tolerant — a missing value, unparseable
text, or a non-array value yields the empty collection; an array yields
exactly its conforming elements (records with string `id`, string `title`,
boolean `completed`), dropping non-conforming elements; a kept element with
missing or non-numeric `createdAt` gets the load-time clock substituted,
while a numeric `createdAt` is kept verbatim. -/
theorem rehydrate_tolerates_malformed (now : Int) :
    parseStoredTodos now .absent = []
  ∧ parseStoredTodos now .unparseable = []
  ∧ (∀ j, (∀ elems, j ≠ .arr elems) → parseStoredTodos now (.parsed j) = [])
  ∧ (∀ elems, parseStoredTodos now (.parsed (.arr elems)) =
      elems.filterMap (decodeTodoElem now))
  ∧ (∀ j, (∀ n, j.getField "createdAt" ≠ some (.num n)) →
      (readTodo now j).createdAt = now)
  ∧ (∀ j n, j.getField "createdAt" = some (.num n) →
      (readTodo now j).createdAt = n) := by
  refine ⟨rfl, rfl, ?_, ?_, ?_, ?_⟩
  · intro j hj
    cases j with
    | arr elems => exact absurd rfl (hj elems)
    | null => rfl
    | bool b => rfl
    | num n => rfl
    | str s => rfl
    | obj fields => rfl
  · intro elems
    induction elems with
    | nil => rfl
    | cons j js ih =>
      by_cases h : conformsTodo j
      · simp only [parseStoredTodos, List.filter_cons, h, if_true, List.map_cons,
          List.filterMap_cons, decodeTodoElem] at ih ⊢
        rw [ih]
      · simp only [parseStoredTodos, List.filter_cons, h, List.filterMap_cons,
          decodeTodoElem, Bool.false_eq_true, if_false] at ih ⊢
        rw [ih]
  · intro j hj
    simp only [readTodo]
  · intro j n hj
    simp only [readTodo, hj]

/-- C4 witness: the conditional cases instantiated at concrete inputs — a
non-array value rehydrates to the empty collection, a conforming element
without numeric `createdAt` gets the load-time clock, one with numeric
`createdAt` keeps it. -/
theorem rehydrate_tolerates_malformed_witness :
    parseStoredTodos 7 (.parsed (.obj [("id", .str "a")])) = []
  ∧ (readTodo 7 (Json.obj [("id", .str "a"), ("title", .str "x"),
      ("completed", .bool false)])).createdAt = 7
  ∧ (readTodo 7 (Json.obj [("id", .str "a"), ("title", .str "x"),
      ("completed", .bool false), ("createdAt", .num 3)])).createdAt = 3 := by
  obtain ⟨-, -, h3, -, h5, h6⟩ := rehydrate_tolerates_malformed 7
  refine ⟨h3 (.obj [("id", .str "a")]) ?_, h5 _ ?_, h6 _ 3 rfl⟩
  · intro elems h
    exact Json.noConfusion h
  · intro n h
    exact Option.noConfusion h

/-! ### C5 -/

/-- C5 counterexample: rehydration does not deduplicate ids. A stored array
with two conforming elements sharing id "a" rehydrates to two tasks with
equal ids, so the collection produced by rehydration can contain two tasks
with equal ids, contradicting the claim. -/
theorem rehydration_can_duplicate_ids :
    ((parseStoredTodos 0 (.parsed (.arr
        [.obj [("id", .str "a"), ("title", .str "x"), ("completed", .bool false)],
         .obj [("id", .str "a"), ("title", .str "y"), ("completed", .bool false)]]))).map
      fun t => t.id) = ["a", "a"]
  ∧ ¬ ((parseStoredTodos 0 (.parsed (.arr
        [.obj [("id", .str "a"), ("title", .str "x"), ("completed", .bool false)],
         .obj [("id", .str "a"), ("title", .str "y"), ("completed", .bool false)]]))).map
      fun t => t.id).Nodup := by
  constructor
  · rfl
  · decide

/-- C5 amended: every mutating operation preserves pairwise-distinct ids,
and Create preserves them provided the generated id is fresh (the
time-plus-random `generateId` makes collisions improbable but not
impossible, and rehydration itself does not deduplicate, so uniqueness is
an invariant preserved by operations rather than guaranteed by the store's
lifetime). -/
theorem ops_preserve_unique_ids (s : AppState) (now : Int) (newId : String) (id : String)
    (hnd : (s.todos.map fun t => t.id).Nodup)
    (hfresh : newId ∉ s.todos.map fun t => t.id) :
    ((addTodo now newId s).todos.map fun t => t.id).Nodup
  ∧ ((deleteTodo id s).todos.map fun t => t.id).Nodup
  ∧ ((toggleCompleted id s).todos.map fun t => t.id).Nodup
  ∧ ((commitEdit s).todos.map fun t => t.id).Nodup
  ∧ ((clearCompleted s).todos.map fun t => t.id).Nodup := by
  refine ⟨?_, ?_, ?_, ?_, ?_⟩
  · cases hv : validateTitle s.newTitle with
    | some e => simpa [addTodo, hv] using hnd
    | none =>
      simp only [addTodo, hv, List.map_append, List.map_cons, List.map_nil]
      rw [List.nodup_append]
      exact ⟨hnd, List.nodup_singleton _, by
        intro a ha hb
        rcases List.mem_singleton.mp hb with rfl
        exact hfresh ha⟩
  · rw [deleteTodo_todos]
    exact List.Nodup.sublist (List.Sublist.map _ (List.filter_sublist _)) hnd
  · unfold toggleCompleted
    rw [map_preserves_ids]
    · exact hnd
    · intro t
      by_cases h : t.id == id <;> simp [h]
  · cases hv : validateTitle s.editingTitle with
    | some e => simpa [commitEdit, hv] using hnd
    | none =>
      simp only [commitEdit, hv]
      rw [map_preserves_ids]
      · exact hnd
      · intro t
        by_cases h : some t.id = s.editingId <;> simp [h]
  · rw [clearCompleted_todos]
    exact List.Nodup.sublist (List.Sublist.map _ (List.filter_sublist _)) hnd

/-- C5 amended witness at a concrete state with distinct ids and a fresh
generated id. -/
theorem ops_preserve_unique_ids_witness :
    (([⟨"a", "x", false, 1⟩, ⟨"b", "y", true, 2⟩] : List Todo).map fun t => t.id).Nodup
  ∧ "c" ∉ (([⟨"a", "x", false, 1⟩, ⟨"b", "y", true, 2⟩] : List Todo).map fun t => t.id)
  ∧ ((addTodo 5 "c" ⟨[⟨"a", "x", false, 1⟩, ⟨"b", "y", true, 2⟩], "task", none, "", .all, ""⟩).todos.map
      fun t => t.id).Nodup := by
  refine ⟨by decide, by decide, ?_⟩
  exact (ops_preserve_unique_ids
    ⟨[⟨"a", "x", false, 1⟩, ⟨"b", "y", true, 2⟩], "task", none, "", .all, ""⟩
    5 "c" "a" (by decide) (by decide)).1

/-! ### C6 -/

/-- C6: for every collection, the active view united with the completed
view has the same members as the all view, and each of the three views is
internally sorted ascending by `createdAt`. Deriving a view is a pure
function of the collection (the source copies the array before sorting),
so the underlying collection is untouched by construction. -/
theorem filter_views_partition_and_sorted (todos : List Todo) :
    (∀ t, t ∈ visibleTodos todos .all ↔
        t ∈ visibleTodos todos .active ∨ t ∈ visibleTodos todos .completed)
  ∧ ∀ v, (visibleTodos todos v).Pairwise fun a b => a.createdAt ≤ b.createdAt := by
  constructor
  · intro t
    simp only [visibleTodos, List.mem_filter]
    cases h : t.completed <;> simp [h]
  · intro v
    cases v with
    | all => exact sortByCreatedAt_pairwise todos
    | active =>
      exact List.Pairwise.sublist (List.filter_sublist _) (sortByCreatedAt_pairwise todos)
    | completed =>
      exact List.Pairwise.sublist (List.filter_sublist _) (sortByCreatedAt_pairwise todos)

/-! ### C7 -/

/-- C7: on a collection with pairwise-distinct ids (the store invariant),
`deleteTodo` removes exactly one task — the one whose id matches — so the
total count decreases by exactly 1 when a matching task exists (every task
with a different id being retained, and every surviving task being an
original non-matching one), and the collection is unchanged, total count
included, when no task has that id. -/
theorem delete_removes_exactly_one (s : AppState) (id : String)
    (hnd : (s.todos.map fun t => t.id).Nodup) :
    ((∃ t ∈ s.todos, t.id = id) →
        (getCounts (deleteTodo id s).todos).total + 1 = (getCounts s.todos).total
      ∧ (∀ t ∈ s.todos, t.id ≠ id → t ∈ (deleteTodo id s).todos)
      ∧ (∀ t ∈ (deleteTodo id s).todos, t ∈ s.todos ∧ t.id ≠ id))
  ∧ ((¬ ∃ t ∈ s.todos, t.id = id) →
        (deleteTodo id s).todos = s.todos
      ∧ (getCounts (deleteTodo id s).todos).total = (getCounts s.todos).total) := by
  rw [deleteTodo_todos]
  constructor
  · intro hmem
    refine ⟨?_, ?_, ?_⟩
    · simpa [getCounts] using filter_ne_id_length s.todos id hnd hmem
    · intro t ht hne
      exact List.mem_filter.mpr ⟨ht, by simp [hne]⟩
    · intro t ht
      rcases List.mem_filter.mp ht with ⟨h1, h2⟩
      exact ⟨h1, by simpa using h2⟩
  · intro hmiss
    have : s.todos.filter (fun t => !(t.id == id)) = s.todos := by
      refine List.filter_eq_self.mpr ?_
      intro t ht
      have : t.id ≠ id := fun he => hmiss ⟨t, ht, he⟩
      simp [this]
    rw [this]
    exact ⟨rfl, rfl⟩

/-- C7 witness: delete a present id and a missing id at a concrete state. -/
theorem delete_removes_exactly_one_witness :
    (([⟨"a", "x", false, 1⟩, ⟨"b", "y", true, 2⟩] : List Todo).map fun t => t.id).Nodup
  ∧ (∃ t ∈ ([⟨"a", "x", false, 1⟩, ⟨"b", "y", true, 2⟩] : List Todo), t.id = "a")
  ∧ (getCounts (deleteTodo "a"
      ⟨[⟨"a", "x", false, 1⟩, ⟨"b", "y", true, 2⟩], "", none, "", .all, ""⟩).todos).total + 1
      = (getCounts ([⟨"a", "x", false, 1⟩, ⟨"b", "y", true, 2⟩] : List Todo)).total
  ∧ (deleteTodo "z"
      ⟨[⟨"a", "x", false, 1⟩, ⟨"b", "y", true, 2⟩], "", none, "", .all, ""⟩).todos
      = [⟨"a", "x", false, 1⟩, ⟨"b", "y", true, 2⟩] := by
  refine ⟨by decide, ⟨⟨"a", "x", false, 1⟩, by decide, rfl⟩, ?_, ?_⟩
  · exact ((delete_removes_exactly_one
      ⟨[⟨"a", "x", false, 1⟩, ⟨"b", "y", true, 2⟩], "", none, "", .all, ""⟩ "a"
      (by decide)).1 ⟨⟨"a", "x", false, 1⟩, by decide, rfl⟩).1
  · exact ((delete_removes_exactly_one
      ⟨[⟨"a", "x", false, 1⟩, ⟨"b", "y", true, 2⟩], "", none, "", .all, ""⟩ "z"
      (by decide)).2 (by decide)).1

/-! ### C8 -/

/-- C8 counterexample: the edit-state check of `clearCompleted` is guarded
by JS truthiness of `editingId`, and the empty string is falsy. Editing the
(rehydratable) task with id `""` while it is completed, `clearCompleted`
removes the task — the edit target no longer exists afterwards — yet the
edit state is not cleared, contradicting the claim's "exactly when". -/
theorem clear_completed_keeps_stale_empty_id_edit :
    (clearCompleted ⟨[⟨"", "x", true, 0⟩], "", some "", "x", .all, ""⟩).todos = []
  ∧ (clearCompleted ⟨[⟨"", "x", true, 0⟩], "", some "", "x", .all, ""⟩).editingId = some ""
  ∧ ¬ ∃ t ∈ (clearCompleted ⟨[⟨"", "x", true, 0⟩], "", some "", "x", .all, ""⟩).todos,
      t.id = "" := by
  refine ⟨rfl, rfl, ?_⟩
  decide

/-- C8 amended: `clearCompleted` removes all and only the completed tasks
(afterwards the completed count is 0 and every active task is retained
unchanged), and — provided the current edit target id is a non-empty
string, i.e. truthy in JS — it clears the edit state exactly when that
target no longer exists in the collection afterwards. -/
theorem clear_completed_spec (s : AppState) :
    (clearCompleted s).todos = s.todos.filter (fun t => !t.completed)
  ∧ (getCounts (clearCompleted s).todos).completed = 0
  ∧ (∀ t ∈ s.todos, t.completed = false → t ∈ (clearCompleted s).todos)
  ∧ (∀ id, s.editingId = some id → id ≠ "" →
      ((clearCompleted s).editingId = none ↔
        ¬ ∃ t ∈ (clearCompleted s).todos, t.id = id)) := by
  refine ⟨clearCompleted_todos s, ?_, ?_, ?_⟩
  · rw [clearCompleted_todos]
    simp [getCounts, List.filter_filter]
  · intro t ht hc
    rw [clearCompleted_todos]
    exact List.mem_filter.mpr ⟨ht, by simp [hc]⟩
  · intro id hid hne
    have htruthy : editingIdTruthy s.editingId = true := by
      simp [editingIdTruthy, hid, hne]
    rw [clearCompleted_todos]
    by_cases hb : (s.todos.any fun t => (some t.id == s.editingId) && !t.completed) = true
    · have hres : (clearCompleted s).editingId = s.editingId := by
        simp only [clearCompleted, htruthy, if_true, hb, Bool.not_true,
          Bool.false_eq_true, if_false]
      rw [hres, hid]
      simp only [List.any_eq_true, hid, Bool.and_eq_true, beq_iff_eq,
        Option.some.injEq, Bool.not_eq_eq_eq_not, Bool.not_true] at hb
      obtain ⟨t, ht, hidt, hcompl⟩ := hb
      constructor
      · intro h
        exact absurd h (by simp)
      · intro h
        exact absurd ⟨t, List.mem_filter.mpr ⟨ht, by simp [hcompl]⟩, hidt⟩ h
    · have hres : (clearCompleted s).editingId = none := by
        simp only [clearCompleted, htruthy, if_true, cancelEdit]
        simp only [Bool.not_eq_true] at hb
        simp [hb]
      rw [hres]
      simp only [List.any_eq_true, hid, Bool.and_eq_true, beq_iff_eq,
        Option.some.injEq, Bool.not_eq_eq_eq_not, Bool.not_true] at hb
      push_neg at hb
      constructor
      · intro _ hex
        obtain ⟨t, ht, hidt⟩ := hex
        rcases List.mem_filter.mp ht with ⟨ht', hc'⟩
        have := hb t ht' hidt
        simp [this] at hc'
      · intro _
        rfl

/-- C8 amended witness: a concrete state where the (non-empty-id) edit
target is completed and removed, so the edit state is cleared. -/
theorem clear_completed_spec_witness :
    (clearCompleted ⟨[⟨"a", "x", true, 1⟩], "", some "a", "x", .all, ""⟩).editingId = none
  ∧ (getCounts (clearCompleted
      ⟨[⟨"a", "x", true, 1⟩], "", some "a", "x", .all, ""⟩).todos).completed = 0 := by
  constructor
  · have h := (clear_completed_spec
      ⟨[⟨"a", "x", true, 1⟩], "", some "a", "x", .all, ""⟩).2.2.2 "a" rfl (by decide)
    exact h.mpr (by decide)
  · exact (clear_completed_spec
      ⟨[⟨"a", "x", true, 1⟩], "", some "a", "x", .all, ""⟩).2.1

/-! ### C9 -/

/-- C9: when the edit buffer fails validation (same rule as Create),
`commitEdit` only sets the error message — edit target, buffer, collection
and the rest of the state are preserved; when validation succeeds, exactly
the tasks matching the edit target get their title replaced by the trimmed
buffer (id, completed and createdAt untouched), every other task is
untouched at its position, and the edit state is cleared. -/
theorem commit_edit_validation_and_frame (s : AppState) (id : String)
    (hid : s.editingId = some id) :
    (∀ msg, validateTitle s.editingTitle = some msg →
        msg ≠ "" ∧ commitEdit s = { s with error := msg })
  ∧ (validateTitle s.editingTitle = none →
        (commitEdit s).todos.length = s.todos.length
      ∧ (∀ p ∈ s.todos.zip (commitEdit s).todos,
            (p.1.id ≠ id → p.2 = p.1)
          ∧ (p.1.id = id → p.2.title = jsTrim s.editingTitle
              ∧ p.2.id = p.1.id ∧ p.2.completed = p.1.completed
              ∧ p.2.createdAt = p.1.createdAt))
      ∧ (commitEdit s).editingId = none
      ∧ (commitEdit s).editingTitle = ""
      ∧ (commitEdit s).error = "") := by
  constructor
  · intro msg hv
    exact ⟨validateTitle_msg_nonempty _ _ hv, by simp [commitEdit, hv]⟩
  · intro hv
    have htodos : (commitEdit s).todos = s.todos.map fun t =>
        if some t.id = s.editingId then { t with title := jsTrim s.editingTitle }
        else t := by
      simp [commitEdit, hv]
    refine ⟨by rw [htodos, List.length_map], ?_, by simp [commitEdit, hv],
      by simp [commitEdit, hv], by simp [commitEdit, hv]⟩
    intro p hp
    rw [htodos] at hp
    have h2 := zip_map_snd s.todos _ p hp
    rw [hid] at h2
    constructor
    · intro hne
      rw [h2, if_neg (by simp [hne])]
    · intro he
      rw [h2, if_pos (by simp [he])]
      exact ⟨rfl, rfl, rfl, rfl⟩

/-- C9 witness: a successful commit replacing a title, and a failing commit
that preserves the edit state and surfaces the message. -/
theorem commit_edit_validation_and_frame_witness :
    (commitEdit ⟨[⟨"a", "old", false, 1⟩], "", some "a", " new ", .all, ""⟩).editingId = none
  ∧ (commitEdit ⟨[⟨"a", "old", false, 1⟩], "", some "a", " new ", .all, ""⟩).todos.length
      = ([⟨"a", "old", false, 1⟩] : List Todo).length
  ∧ commitEdit ⟨[⟨"x", "t", false, 1⟩], "", some "x", "   ", .all, ""⟩ =
      ⟨[⟨"x", "t", false, 1⟩], "", some "x", "   ", .all, "Please type a task name."⟩ := by
  have hsucc := (commit_edit_validation_and_frame
    ⟨[⟨"a", "old", false, 1⟩], "", some "a", " new ", .all, ""⟩ "a" rfl).2 (by decide)
  have hfail := (commit_edit_validation_and_frame
    ⟨[⟨"x", "t", false, 1⟩], "", some "x", "   ", .all, ""⟩ "x" rfl).1
    "Please type a task name." (by decide)
  exact ⟨hsucc.2.2.1, hsucc.1, hfail.2⟩

/-! ### C10 -/

/-- C10 counterexample: `commitEdit` with a stale edit target (an id absent
from the collection) and a valid buffer leaves the collection alone but
clears the edit state, so the store state is not entirely unchanged as the
claim requires. -/
theorem stale_commit_clears_edit_state :
    (¬ ∃ t ∈ ([] : List Todo), t.id = "x")
  ∧ (commitEdit ⟨[], "", some "x", "ok", .all, ""⟩).editingId = none
  ∧ commitEdit ⟨[], "", some "x", "ok", .all, ""⟩ ≠ ⟨[], "", some "x", "ok", .all, ""⟩ := by
  refine ⟨by decide, by decide, by decide⟩

/-- C10 amended: for an id not present in the collection, `toggleCompleted`
leaves the whole state unchanged; `deleteTodo` leaves the collection
unchanged, and the whole state when the absent id is not the current edit
target; `startEdit` (reachable only through the rendered list, modelled by
id lookup) is a no-op; and `commitEdit` with a stale edit target and a
valid buffer leaves the collection unchanged and reports no error, but
clears the edit state rather than preserving it. -/
theorem missing_id_operations_spec (s : AppState) (id : String)
    (habs : ∀ t ∈ s.todos, t.id ≠ id) :
    toggleCompleted id s = s
  ∧ (deleteTodo id s).todos = s.todos
  ∧ (s.editingId ≠ some id → deleteTodo id s = s)
  ∧ startEditById id s = s
  ∧ (s.editingId = some id → validateTitle s.editingTitle = none →
        (commitEdit s).todos = s.todos ∧ (commitEdit s).error = ""
      ∧ (commitEdit s).editingId = none ∧ (commitEdit s).editingTitle = "") := by
  have hfilter : (s.todos.filter fun t => !(t.id == id)) = s.todos := by
    refine List.filter_eq_self.mpr ?_
    intro t ht
    simp [habs t ht]
  refine ⟨?_, ?_, ?_, ?_, ?_⟩
  · simp only [toggleCompleted]
    rw [map_fix_eq_self]
    intro t ht
    rw [if_neg (by simp [habs t ht])]
  · rw [deleteTodo_todos, hfilter]
  · intro hne
    simp only [deleteTodo, if_neg hne]
    rw [hfilter]
  · have hfind : s.todos.find? (fun t => t.id == id) = none := by
      refine List.find?_eq_none.mpr ?_
      intro t ht
      simp [habs t ht]
    simp only [startEditById, hfind]
  · intro hid hv
    refine ⟨?_, by simp [commitEdit, hv], by simp [commitEdit, hv], by simp [commitEdit, hv]⟩
    simp only [commitEdit, hv]
    rw [map_fix_eq_self]
    intro t ht
    rw [if_neg (by rw [hid]; simp [habs t ht])]

/-- C10 amended witness at concrete states: missing-id toggle, delete and
startEdit leave the state unchanged; a stale commit keeps the collection
and reports no error. -/
theorem missing_id_operations_spec_witness :
    toggleCompleted "z" ⟨[⟨"a", "x", false, 1⟩], "", none, "", .all, ""⟩ =
      ⟨[⟨"a", "x", false, 1⟩], "", none, "", .all, ""⟩
  ∧ deleteTodo "z" ⟨[⟨"a", "x", false, 1⟩], "", none, "", .all, ""⟩ =
      ⟨[⟨"a", "x", false, 1⟩], "", none, "", .all, ""⟩
  ∧ startEditById "z" ⟨[⟨"a", "x", false, 1⟩], "", none, "", .all, ""⟩ =
      ⟨[⟨"a", "x", false, 1⟩], "", none, "", .all, ""⟩
  ∧ (commitEdit ⟨[⟨"a", "x", false, 1⟩], "", some "z", "ok", .all, ""⟩).todos =
      [⟨"a", "x", false, 1⟩]
  ∧ (commitEdit ⟨[⟨"a", "x", false, 1⟩], "", some "z", "ok", .all, ""⟩).error = "" := by
  have h1 := missing_id_operations_spec
    ⟨[⟨"a", "x", false, 1⟩], "", none, "", .all, ""⟩ "z" (by decide)
  have h2 := missing_id_operations_spec
    ⟨[⟨"a", "x", false, 1⟩], "", some "z", "ok", .all, ""⟩ "z" (by decide)
  have h2' := h2.2.2.2.2 rfl (by decide)
  exact ⟨h1.1, h1.2.2.1 (by decide), h1.2.2.2.1, h2'.1, h2'.2.1⟩
